import Mathlib

/-!
Verification development for the Foundry Local integration layer
(`src-tauri/src/managers/foundry.rs` and `src-tauri/src/commands/foundry.rs`).

Text is embedded as `List Char`; each Rust string operation is modelled by an
executable Lean function carrying the same name where possible.  Effectful
operations (external command invocations, sleeps) are modelled over an
environment that supplies the result of the k-th command invocation, and every
operation additionally returns the next invocation counter and a trace of
events (commands issued, sleeps performed), so that invocation counts and
waiting times can be stated and proved.
-/

namespace Handy

/-- Convert a Lean string literal to the character-list representation used
throughout this development. -/
def chars (s : String) : List Char := s.toList

/-- Whitespace predicate modelling Rust `char::is_whitespace` on the ASCII
whitespace characters that occur in CLI output. -/
def isWs (c : Char) : Bool := c == ' ' || c == '\t' || c == '\n' || c == '\r'

/-- Model of Rust `str::to_lowercase` (character-wise lowering). -/
def toLowerL (l : List Char) : List Char := l.map Char.toLower

/-- Model of Rust `str::contains(pat)`: `pat` occurs as a contiguous substring. -/
def containsSub (pat : List Char) : List Char → Bool
  | [] => pat.isEmpty
  | c :: rest => pat.isPrefixOf (c :: rest) || containsSub pat rest

/-- Split on newline characters; auxiliary for `rustLines`. -/
def splitOnNl : List Char → List (List Char)
  | [] => [[]]
  | '\n' :: rest => [] :: splitOnNl rest
  | c :: rest =>
    match splitOnNl rest with
    | h :: t => (c :: h) :: t
    | [] => [[c]]

/-- Drop one trailing carriage return, as Rust `str::lines` does per line. -/
def stripCr (l : List Char) : List Char :=
  match l.reverse with
  | '\r' :: r => r.reverse
  | _ => l

/-- Model of Rust `str::lines`: split on `\n`, no empty final line for a
trailing newline, and a trailing `\r` removed from each line. -/
def rustLines (s : List Char) : List (List Char) :=
  if s = [] then []
  else
    let ps := splitOnNl s
    let ps := if ps.getLast? = some [] then ps.dropLast else ps
    ps.map stripCr

/-- Model of Rust `str::trim_start`. -/
def trimLeft (l : List Char) : List Char := l.dropWhile (fun c => isWs c)

/-- Model of Rust `str::trim_end`. -/
def trimRight (l : List Char) : List Char :=
  (l.reverse.dropWhile (fun c => isWs c)).reverse

/-- Model of Rust `str::trim`. -/
def trimList (l : List Char) : List Char := trimRight (trimLeft l)

/-- Model of Rust `str::split_whitespace`. -/
def splitWs : List Char → List (List Char)
  | [] => []
  | c :: rest =>
    if isWs c then splitWs rest
    else
      (c :: rest.takeWhile (fun d => !isWs d)) ::
        splitWs (rest.dropWhile (fun d => !isWs d))
termination_by l => l.length
decreasing_by
  · simp only [List.length_cons]; omega
  · have hle : (rest.dropWhile (fun d => !isWs d)).length ≤ rest.length :=
      (List.dropWhile_sublist (fun d => !isWs d)).length_le
    simp only [List.length_cons]; omega

/-- Model of `strip_ansi`: remove every occurrence of the pattern
`ESC [ [0-9;]* (m|K)`, mirroring `Regex::replace_all` in the source. -/
def stripAnsi : List Char → List Char
  | [] => []
  | '\x1b' :: '[' :: rest =>
    match h : rest.dropWhile (fun c => c.isDigit || c == ';') with
    | 'm' :: tail => stripAnsi tail
    | 'K' :: tail => stripAnsi tail
    | _ => '\x1b' :: stripAnsi ('[' :: rest)
  | c :: rest => c :: stripAnsi rest
termination_by l => l.length
decreasing_by
  · have hle : (rest.dropWhile (fun c => c.isDigit || c == ';')).length ≤ rest.length :=
      (List.dropWhile_sublist (fun c => c.isDigit || c == ';')).length_le
    have hlen : (rest.dropWhile (fun c => c.isDigit || c == ';')).length = tail.length + 1 := by
      rw [h]; simp
    simp only [List.length_cons]; omega
  · have hle : (rest.dropWhile (fun c => c.isDigit || c == ';')).length ≤ rest.length :=
      (List.dropWhile_sublist (fun c => c.isDigit || c == ';')).length_le
    have hlen : (rest.dropWhile (fun c => c.isDigit || c == ';')).length = tail.length + 1 := by
      rw [h]; simp
    simp only [List.length_cons]; omega
  · simp only [List.length_cons]; omega
  · simp only [List.length_cons]; omega

/-- Model of Rust `str::trim_end_matches(|c| c == '.' || c == ',')`. -/
def trimEndPunct (l : List Char) : List Char :=
  (l.reverse.dropWhile (fun c => c == '.' || c == ',')).reverse

/-- Model of Rust `str::trim_end_matches('/')`. -/
def trimEndSlash (l : List Char) : List Char :=
  (l.reverse.dropWhile (fun c => c == '/')).reverse

/-- Model of Rust `str::find("://")` returning the pieces before and after the
first occurrence, or `none` when the separator does not occur. -/
def splitAtSep : List Char → Option (List Char × List Char)
  | ':' :: '/' :: '/' :: rest => some ([], rest)
  | c :: rest =>
    match splitAtSep rest with
    | some (a, b) => some (c :: a, b)
    | none => none
  | [] => none

/-- Model of `normalize_base_url`: keep scheme and `host:port`, discard any
path, and append the fixed `/v1` segment. -/
def normalize_base_url (url : List Char) : List Char :=
  match splitAtSep url with
  | some (scheme, rest) =>
    if rest.any (fun c => c == '/') then
      scheme ++ chars "://" ++ rest.takeWhile (fun c => c != '/') ++ chars "/v1"
    else trimEndSlash url ++ chars "/v1"
  | none => trimEndSlash url ++ chars "/v1"

/-- Attempt of the regex `https?://\S+` anchored at the head of the list:
either scheme literal followed by at least one non-whitespace character. -/
def matchUrlAt (l : List Char) : Option (List Char) :=
  if (chars "https://").isPrefixOf l then
    let tok := (l.drop 8).takeWhile (fun c => !isWs c)
    if tok = [] then none else some (chars "https://" ++ tok)
  else if (chars "http://").isPrefixOf l then
    let tok := (l.drop 7).takeWhile (fun c => !isWs c)
    if tok = [] then none else some (chars "http://" ++ tok)
  else none

/-- Leftmost match of the regex `https?://\S+` in a line. -/
def findUrl : List Char → Option (List Char)
  | [] => none
  | c :: rest =>
    match matchUrlAt (c :: rest) with
    | some m => some m
    | none => findUrl rest

/-- Error message of `extract_endpoint_url` when no URL-shaped substring is
found. -/
def urlErrMsg : String := "Could not find endpoint URL in Foundry service status output"

/-- Line scan of `extract_endpoint_url`: first line with a URL match wins. -/
def goUrl : List (List Char) → Except String (List Char)
  | [] => .error urlErrMsg
  | line :: rest =>
    match findUrl line with
    | some raw => .ok (normalize_base_url (trimEndPunct raw))
    | none => goUrl rest

/-- Model of `extract_endpoint_url`: sanitize, scan lines for the first
`https?://\S+` match, trim trailing `.`/`,`, normalize. -/
def extract_endpoint_url (output : List Char) : Except String (List Char) :=
  goUrl (rustLines (stripAnsi output))

/-- The four status-indicator glyphs recognised by `extract_model_id`. -/
def glyphList : List Char := ['🟢', '🟡', '🟠', '🔴']

/-- Model of the `starts_with` tests against the four glyphs. -/
def startsWithGlyph : List Char → Bool
  | c :: _ => glyphList.contains c
  | [] => false

/-- Per-line step of `extract_model_id`: on a trimmed, non-empty,
glyph-prefixed line, strip the leading non-alphanumeric prefix, split on
whitespace, and return the last token when at least two columns remain. -/
def modelLineResult (line : List Char) : Option (List Char) :=
  if trimList line = [] then none
  else if startsWithGlyph (trimList line) then
    if 2 ≤ (splitWs (trimList ((trimList line).dropWhile (fun c => !c.isAlphanum)))).length then
      (splitWs (trimList ((trimList line).dropWhile (fun c => !c.isAlphanum)))).getLast?
    else none
  else none

/-- Line scan of `extract_model_id`, first productive line wins. -/
def goModelLines : List (List Char) → Option (List Char)
  | [] => none
  | l :: rest =>
    match modelLineResult l with
    | some r => some r
    | none => goModelLines rest

/-- Character class `[A-Za-z0-9_\-\.]` of the fallback regex. -/
def isIdChar (c : Char) : Bool := c.isAlphanum || c == '_' || c == '-' || c == '.'

/-- Attempt of the fallback regex `[A-Za-z0-9_\-\.]+:[0-9]+` anchored at the
head of the list (greedy class run, then a colon, then at least one digit). -/
def fallbackAt (l : List Char) : Option (List Char) :=
  let run := l.takeWhile isIdChar
  if run = [] then none
  else
    match l.drop run.length with
    | ':' :: rest =>
      let ds := rest.takeWhile Char.isDigit
      if ds = [] then none else some (run ++ ':' :: ds)
    | _ => none

/-- Leftmost match of the fallback regex in the sanitized text. -/
def fallbackScan : List Char → Option (List Char)
  | [] => none
  | c :: rest =>
    match fallbackAt (c :: rest) with
    | some m => some m
    | none => fallbackScan rest

/-- Error message of `extract_model_id` when neither rule matches. -/
def modelErrMsg : String :=
  "Could not find model ID in Foundry service list output. Ensure a model is loaded and foundry service list returns its ID."

/-- Model of `extract_model_id`: primary glyph-line rule over sanitized lines,
then the name-colon-revision fallback over the whole sanitized text. -/
def extract_model_id (output : List Char) : Except String (List Char) :=
  match goModelLines (rustLines (stripAnsi output)) with
  | some r => .ok r
  | none =>
    match fallbackScan (stripAnsi output) with
    | some m => .ok m
    | none => .error modelErrMsg

/-! ## Effect model

External command invocations are modelled by an environment supplying the
result of the k-th invocation (`none` = spawn failure).  Every operation
returns its result, the next invocation counter, and a trace of events. -/

/-- Captured result of one external command invocation (Rust `Output`). -/
structure CommandResult where
  success : Bool
  stdout : List Char
  stderr : List Char

/-- Observable events: a command invocation with its argument list, or a
sleep of the given number of milliseconds. -/
inductive Event where
  | cmd (args : List (List Char))
  | sleepE (ms : Nat)

/-- Event traces. -/
abbrev Trace := List Event

/-- Environment: response to the k-th command invocation (`none` models an
execution/spawn failure), and whether the well-known install path exists. -/
structure Env where
  resp : Nat → Option CommandResult
  exePath : Bool

def helpArgs : List (List Char) := [chars "--help"]

def versionArgs : List (List Char) := [chars "--version"]

def statusArgs : List (List Char) := [chars "service", chars "status"]

def listArgs : List (List Char) := [chars "service", chars "list"]

def cacheArgs : List (List Char) := [chars "cache", chars "list"]

def dlArgs (name : List Char) : List (List Char) :=
  [chars "model", chars "download", name]

def wingetArgs : List (List Char) := [chars "install", chars "Microsoft.FoundryLocal"]

def spawnErrMsg : String := "failed to execute foundry"

/-- Decision core of `is_installed` on the outcome of `foundry --help`:
command ran → its exit status; spawn failure → well-known path existence. -/
def installedOfOutput (exePath : Bool) : Option CommandResult → Bool
  | some r => r.success
  | none => exePath

/-- Decision core of `is_service_running` on a captured `service status`
output, mirroring the branch structure of the source. -/
def serviceRunningOfOutput (r : CommandResult) : Except String Bool :=
  if r.success = false then
    if containsSub (chars "service is not running") r.stderr ||
        containsSub (chars "not responding") r.stderr then .ok false
    else .error "Foundry service list command failed"
  else if containsSub (chars "not running") (toLowerL r.stdout) then .ok false
  else .ok true

/-- Decision core of `is_model_cached` on a captured `cache list` output. -/
def cachedOfOutput (name : List Char) (r : CommandResult) : Except String Bool :=
  if r.success = false then
    if containsSub (chars "not running") (toLowerL r.stdout) ||
        containsSub (chars "not running") (toLowerL r.stderr) then .ok false
    else .error "Foundry cache list command failed"
  else .ok ((rustLines r.stdout).any (fun line => containsSub (toLowerL name) (toLowerL line)))

/-- Sentinel phrase checked by `get_model_id_once` before extraction. -/
def sentinelNoModels : List Char := chars "no models are currently loaded"

/-- Decision core of `get_model_id_once` on a captured `service list` output. -/
def modelIdOnceOfOutput (r : CommandResult) : Except String (Option (List Char)) :=
  if r.success = false then .error "Foundry service list command failed"
  else if containsSub sentinelNoModels (toLowerL r.stdout) then .ok none
  else (extract_model_id r.stdout).map some

/-- Decision core of `get_version` on a captured `--version` output. -/
def versionOfOutput (r : CommandResult) : Except String (List Char) :=
  if r.success = false then .error "Foundry version command failed"
  else
    let v := trimList ((rustLines r.stdout).headD [])
    if v = [] then .error "Foundry version output was empty"
    else .ok v

/-- Model of `FoundryManager::is_installed`. -/
def is_installed (e : Env) (k : Nat) : Bool × Nat × Trace :=
  (installedOfOutput e.exePath (e.resp k), k + 1, [.cmd helpArgs])

/-- Model of `FoundryManager::is_service_running`. -/
def is_service_running (e : Env) (k : Nat) : Except String Bool × Nat × Trace :=
  match e.resp k with
  | none => (.error spawnErrMsg, k + 1, [.cmd statusArgs])
  | some r => (serviceRunningOfOutput r, k + 1, [.cmd statusArgs])

/-- Model of `FoundryManager::is_model_cached`. -/
def is_model_cached (name : List Char) (e : Env) (k : Nat) :
    Except String Bool × Nat × Trace :=
  match e.resp k with
  | none => (.error spawnErrMsg, k + 1, [.cmd cacheArgs])
  | some r => (cachedOfOutput name r, k + 1, [.cmd cacheArgs])

/-- Result of the i-th cache query as seen by polling loops. -/
def cachedResult (name : List Char) (e : Env) (i : Nat) : Except String Bool :=
  (is_model_cached name e i).1

/-- Model of `FoundryManager::get_endpoint_url`. -/
def get_endpoint_url (e : Env) (k : Nat) : Except String (List Char) × Nat × Trace :=
  match e.resp k with
  | none => (.error spawnErrMsg, k + 1, [.cmd statusArgs])
  | some r =>
    (if r.success = false then .error "Foundry service status command failed"
     else extract_endpoint_url r.stdout, k + 1, [.cmd statusArgs])

/-- Model of `FoundryManager::get_model_id_once`. -/
def get_model_id_once (e : Env) (k : Nat) :
    Except String (Option (List Char)) × Nat × Trace :=
  match e.resp k with
  | none => (.error spawnErrMsg, k + 1, [.cmd listArgs])
  | some r => (modelIdOnceOfOutput r, k + 1, [.cmd listArgs])

/-- Model of `FoundryManager::get_version`, including the retry through the
well-known install path after a spawn failure. -/
def get_version (e : Env) (k : Nat) : Except String (List Char) × Nat × Trace :=
  match e.resp k with
  | some r => (versionOfOutput r, k + 1, [.cmd versionArgs])
  | none =>
    if e.exePath then
      match e.resp (k + 1) with
      | some r => (versionOfOutput r, k + 2, [.cmd versionArgs, .cmd versionArgs])
      | none => (.error spawnErrMsg, k + 2, [.cmd versionArgs, .cmd versionArgs])
    else (.error "Foundry executable not found", k + 1, [.cmd versionArgs])

def platformErrMsg : String := "Foundry Local installation is only supported on Windows."

/-- Model of `FoundryManager::install_foundry_local`; `windows` models the
compile-time `cfg!(target_os = "windows")` split. -/
def install_foundry_local (windows : Bool) (e : Env) (k : Nat) :
    Except String (List Char) × Nat × Trace :=
  if windows then
    match is_installed e k with
    | (true, k1, t1) =>
      let (v, k2, t2) := get_version e k1
      (v, k2, t1 ++ t2)
    | (false, k1, t1) =>
      match e.resp k1 with
      | none => (.error spawnErrMsg, k1 + 1, t1 ++ [.cmd wingetArgs])
      | some r =>
        if r.success = false then
          (.error "winget install failed", k1 + 1, t1 ++ [.cmd wingetArgs])
        else
          let (v, k2, t2) := get_version e (k1 + 1)
          (v, k2, t1 ++ [.cmd wingetArgs] ++ t2)
  else (.error platformErrMsg, k, [])

/-- Model of `FoundryManager::download_model`. -/
def download_model (name : List Char) (e : Env) (k : Nat) :
    Except String Unit × Nat × Trace :=
  match e.resp k with
  | none => (.error spawnErrMsg, k + 1, [.cmd (dlArgs name)])
  | some r =>
    (if r.success = false then .error "Failed to download Foundry model" else .ok (),
      k + 1, [.cmd (dlArgs name)])

/-- Model of `FoundryManager::ensure_model_downloaded`. -/
def ensure_model_downloaded (name : List Char) (e : Env) (k : Nat) :
    Except String Unit × Nat × Trace :=
  match is_model_cached name e k with
  | (.ok true, k1, t1) => (.ok (), k1, t1)
  | (.ok false, k1, t1) =>
    let (res, k2, t2) := download_model name e k1
    (res, k2, t1 ++ t2)
  | (.error m, k1, t1) => (.error m, k1, t1)

def startFailMsg : String := "Failed to start Foundry service"

/-- Polling loop of `start_service_with_timeout`: at entry `k`, `250 * k`
milliseconds have elapsed (one 250 ms sleep per completed iteration).  The
child is checked first; only then is the deadline compared, exactly as in the
source. `child j` is the `try_wait` observation at iteration `j`. -/
def startGo (timeout : Nat) (child : Nat → Option Bool) (k : Nat) : Except String Unit :=
  match child k with
  | some st => if st then .ok () else .error startFailMsg
  | none =>
    if h : timeout ≤ 250 * k then .ok ()
    else startGo timeout child (k + 1)
termination_by timeout - 250 * k
decreasing_by omega

/-- Model of `FoundryManager::start_service_with_timeout`; `spawnOk` models
whether `Command::spawn` itself succeeded. -/
def start_service_with_timeout (timeout : Nat) (spawnOk : Bool)
    (child : Nat → Option Bool) : Except String Unit :=
  if spawnOk then startGo timeout child 0 else .error spawnErrMsg

def readyTimeoutMsg : String := "Foundry service did not become ready in time."

def notRunningMsg : String := "Foundry service is not running."

def statusFailMsg : String := "Foundry service status command failed"

/-- Loop body of `wait_for_service_ready`, recursing on remaining attempts. -/
def waitReadyGo (e : Env) (delay : Nat) : Nat → Nat → Except String Unit × Nat × Trace
  | 0, k => (.error readyTimeoutMsg, k, [])
  | n + 1, k =>
    match e.resp k with
    | none => (.error spawnErrMsg, k + 1, [.cmd statusArgs])
    | some r =>
      if r.success = false then (.error statusFailMsg, k + 1, [.cmd statusArgs])
      else
        let low := toLowerL r.stdout
        if containsSub (chars "not running") low then
          (.error notRunningMsg, k + 1, [.cmd statusArgs])
        else if !containsSub (chars "in progress") low && containsSub (chars "running on") low then
          (.ok (), k + 1, [.cmd statusArgs])
        else if n = 0 then (.error readyTimeoutMsg, k + 1, [.cmd statusArgs])
        else
          let (res, k2, t2) := waitReadyGo e delay n (k + 1)
          (res, k2, .cmd statusArgs :: .sleepE delay :: t2)

/-- Model of `FoundryManager::wait_for_service_ready`. -/
def wait_for_service_ready (attempts delay : Nat) (e : Env) (k : Nat) :
    Except String Unit × Nat × Trace :=
  waitReadyGo e delay attempts k

def cacheTimeoutMsg : String := "Foundry model was not cached in time."

/-- Loop body of the command layer `wait_for_model_cached`, recursing on
remaining attempts; sleeps only between attempts, never after the last. -/
def waitCachedGo (name : List Char) (delay : Nat) (e : Env) :
    Nat → Nat → Except String Unit × Nat × Trace
  | 0, k => (.error cacheTimeoutMsg, k, [])
  | n + 1, k =>
    match is_model_cached name e k with
    | (.error m, k1, t1) => (.error ("Failed to check Foundry cache: " ++ m), k1, t1)
    | (.ok true, k1, t1) => (.ok (), k1, t1)
    | (.ok false, k1, t1) =>
      if n = 0 then (.error cacheTimeoutMsg, k1, t1)
      else
        let (res, k2, t2) := waitCachedGo name delay e n k1
        (res, k2, t1 ++ .sleepE delay :: t2)

/-- Model of `wait_for_model_cached` from the command layer. -/
def wait_for_model_cached (name : List Char) (attempts delay : Nat) (e : Env) (k : Nat) :
    Except String Unit × Nat × Trace :=
  waitCachedGo name delay e attempts k

/-- Snapshot returned by the status aggregator (`FoundryStatus` in the source). -/
structure FoundryStatus where
  installed : Bool
  running : Bool
  endpoint_url : Option (List Char)
  model_id : Option (List Char)
  model_cached : Bool

def defaultFoundryModel : List Char := chars "phi-4-mini"

/-- Model of the `get_foundry_status` command: queries in dependency order,
each sub-query error downgraded to the absent default. -/
def get_foundry_status (e : Env) (k : Nat) : FoundryStatus × Nat × Trace :=
  let (installed, k1, t1) := is_installed e k
  if installed then
    let (rres, k2, t2) := is_service_running e k1
    let running := match rres with | .ok b => b | .error _ => false
    if running then
      let (cres, k3, t3) := is_model_cached defaultFoundryModel e k2
      let model_cached := match cres with | .ok b => b | .error _ => false
      let (eres, k4, t4) := get_endpoint_url e k3
      let endpoint_url := match eres with | .ok u => some u | .error _ => none
      let (mres, k5, t5) := get_model_id_once e k4
      let model_id := match mres with | .ok (some i) => some i | _ => none
      (⟨true, true, endpoint_url, model_id, model_cached⟩, k5, t1 ++ t2 ++ t3 ++ t4 ++ t5)
    else (⟨true, false, none, none, false⟩, k2, t1 ++ t2)
  else (⟨false, false, none, none, false⟩, k1, t1)

/-- Expected trace of a polling loop: `n` invocations of `args` with a sleep
of `d` between consecutive invocations and none after the last. -/
def pollT (args : List (List Char)) (d : Nat) : Nat → Trace
  | 0 => []
  | 1 => [.cmd args]
  | n + 2 => .cmd args :: .sleepE d :: pollT args d (n + 1)

/-- Number of invocations of the command `args` recorded in a trace. -/
def cmdCount (args : List (List Char)) (tr : Trace) : Nat :=
  tr.countP (fun ev => match ev with | .cmd a => a == args | _ => false)

/-- Sum of all sleep durations recorded in a trace. -/
def sleepTotal (tr : Trace) : Nat :=
  (tr.map (fun ev => match ev with | .sleepE d => d | _ => 0)).sum

/-- Shape demanded of every URL produced by `extract_endpoint_url`: an http
or https scheme, a slash-free authority, and the path exactly `/v1` (the
degenerate second disjunct arises only from a URL whose authority was empty
after punctuation trimming). -/
def isV1Shape (u : List Char) : Prop :=
  ∃ scheme host : List Char,
    (scheme = chars "http" ∨ scheme = chars "https") ∧ '/' ∉ host ∧
    (u = scheme ++ chars "://" ++ host ++ chars "/v1" ∨ u = scheme ++ chars ":/v1")

/-- Observation of `wait_for_service_ready` that merely consumes an attempt:
command succeeded, no "not running", but not yet ready (an "in progress"
phrase present or no "running on" phrase). -/
def notReadyOutput (r : CommandResult) : Prop :=
  r.success = true ∧
    containsSub (chars "not running") (toLowerL r.stdout) = false ∧
    (containsSub (chars "in progress") (toLowerL r.stdout) = true ∨
      containsSub (chars "running on") (toLowerL r.stdout) = false)

/-- Response on which `wait_for_service_ready` aborts immediately: spawn
failure, non-zero exit, or a "not running" phrase in stdout. -/
def badStatusResp (o : Option CommandResult) : Prop :=
  o = none ∨
    ∃ r, o = some r ∧
      (r.success = false ∨ containsSub (chars "not running") (toLowerL r.stdout) = true)

/-- Liveness precondition of the start-polling loop: the loop actually
reaches iteration `k` (the child was still running and the deadline had not
passed at every earlier iteration). -/
def reachPoll (timeout : Nat) (child : Nat → Option Bool) (k : Nat) : Prop :=
  ∀ j, j < k → child j = none ∧ 250 * j < timeout

/-! ## Lemmas about the endpoint extractor (claim C1) -/

theorem trimEndPunct_append_keep (a tok : List Char)
    (ha : a.reverse.dropWhile (fun c => c == '.' || c == ',') = a.reverse) :
    trimEndPunct (a ++ tok) = a ++ trimEndPunct tok := by
  unfold trimEndPunct
  rw [List.reverse_append, List.dropWhile_append]
  by_cases h : (tok.reverse.dropWhile (fun c => c == '.' || c == ',')).isEmpty
  · rw [if_pos h, ha, List.reverse_reverse]
    rw [List.isEmpty_iff] at h
    rw [h]
    simp
  · rw [if_neg h, List.reverse_append, List.reverse_reverse]

theorem trimEndSlash_keep (a t' : List Char) (hne : t' ≠ [])
    (hns : '/' ∉ t') :
    trimEndSlash (a ++ t') = a ++ t' := by
  unfold trimEndSlash
  rw [List.reverse_append]
  have hrne : t'.reverse ≠ [] := by simpa using hne
  obtain ⟨e, s, hes⟩ := List.exists_cons_of_ne_nil hrne
  have he : e ∈ t' := by
    have : e ∈ t'.reverse := by rw [hes]; exact List.mem_cons_self _ _
    simpa using this
  have hne' : (e == '/') = false := by
    simp only [beq_eq_false_iff_ne, ne_eq]
    intro hcontra
    exact hns (hcontra ▸ he)
  rw [hes, List.cons_append, List.dropWhile_cons, hne']
  simp only [Bool.false_eq_true, if_false]
  rw [← List.cons_append, ← hes, ← List.reverse_append, List.reverse_reverse]

theorem matchUrlAt_shape (l raw : List Char) (h : matchUrlAt l = some raw) :
    ∃ tok, raw = chars "https://" ++ tok ∨ raw = chars "http://" ++ tok := by
  simp only [matchUrlAt] at h
  split at h
  · split at h
    · exact absurd h (by simp)
    · exact ⟨_, Or.inl (Option.some.inj h).symm⟩
  · split at h
    · split at h
      · exact absurd h (by simp)
      · exact ⟨_, Or.inr (Option.some.inj h).symm⟩
    · exact absurd h (by simp)

theorem findUrl_shape (l raw : List Char) (h : findUrl l = some raw) :
    ∃ tok, raw = chars "https://" ++ tok ∨ raw = chars "http://" ++ tok := by
  induction l with
  | nil => simp [findUrl] at h
  | cons c rest ih =>
    rw [findUrl] at h
    cases hm : matchUrlAt (c :: rest) with
    | some m =>
      rw [hm] at h
      simp only [Option.some.injEq] at h
      exact matchUrlAt_shape _ _ (hm.trans (congrArg some h))
    | none =>
      rw [hm] at h
      exact ih h

theorem not_slash_of_not_any (t' : List Char) (h : ¬ t'.any (fun c => c == '/') = true) :
    '/' ∉ t' := by
  intro hm
  exact h (List.any_eq_true.mpr ⟨'/', hm, by simp⟩)

theorem isV1Shape_norm_http (t' : List Char) :
    isV1Shape (normalize_base_url (chars "http://" ++ t')) := by
  have hsep : splitAtSep (chars "http://" ++ t') = some (chars "http", t') := rfl
  by_cases h : t'.any (fun c => c == '/') = true
  · refine ⟨chars "http", t'.takeWhile (fun c => c != '/'), Or.inl rfl, ?_, Or.inl ?_⟩
    · intro hm
      have := List.mem_takeWhile_imp hm
      simp at this
    · simp only [normalize_base_url, hsep, h, if_true]
  · match t', h with
    | [], _ => exact ⟨chars "http", [], Or.inl rfl, by simp, Or.inr (by decide)⟩
    | d :: r, h =>
      refine ⟨chars "http", d :: r, Or.inl rfl, not_slash_of_not_any _ h, Or.inl ?_⟩
      simp only [normalize_base_url, hsep, h, if_false]
      rw [trimEndSlash_keep _ _ (by simp) (not_slash_of_not_any _ h)]
      have hc : chars "http://" = chars "http" ++ chars "://" := by decide
      rw [hc]
      simp [List.append_assoc]

theorem isV1Shape_norm_https (t' : List Char) :
    isV1Shape (normalize_base_url (chars "https://" ++ t')) := by
  have hsep : splitAtSep (chars "https://" ++ t') = some (chars "https", t') := rfl
  by_cases h : t'.any (fun c => c == '/') = true
  · refine ⟨chars "https", t'.takeWhile (fun c => c != '/'), Or.inr rfl, ?_, Or.inl ?_⟩
    · intro hm
      have := List.mem_takeWhile_imp hm
      simp at this
    · simp only [normalize_base_url, hsep, h, if_true]
  · match t', h with
    | [], _ => exact ⟨chars "https", [], Or.inr rfl, by simp, Or.inr (by decide)⟩
    | d :: r, h =>
      refine ⟨chars "https", d :: r, Or.inr rfl, not_slash_of_not_any _ h, Or.inl ?_⟩
      simp only [normalize_base_url, hsep, h, if_false]
      rw [trimEndSlash_keep _ _ (by simp) (not_slash_of_not_any _ h)]
      have hc : chars "https://" = chars "https" ++ chars "://" := by decide
      rw [hc]
      simp [List.append_assoc]

theorem goUrl_spec (ls : List (List Char)) :
    goUrl ls = .error urlErrMsg ∨ ∃ u, goUrl ls = .ok u ∧ isV1Shape u := by
  induction ls with
  | nil => exact Or.inl rfl
  | cons line rest ih =>
    cases hm : findUrl line with
    | none => simpa [goUrl, hm] using ih
    | some raw =>
      right
      refine ⟨normalize_base_url (trimEndPunct raw), by simp [goUrl, hm], ?_⟩
      obtain ⟨tok, hs | hs⟩ := findUrl_shape _ _ hm
      · rw [hs, trimEndPunct_append_keep _ _ (by decide)]
        exact isV1Shape_norm_https _
      · rw [hs, trimEndPunct_append_keep _ _ (by decide)]
        exact isV1Shape_norm_http _

/-- C1: for every input text, `extract_endpoint_url` either fails with the
not-found error, or returns a URL whose scheme is the original http/https
scheme, whose authority contains no slash, and whose path is exactly the
fixed version segment `/v1` — it never retains the original status sub-path. -/
theorem c1_extract_endpoint_url_v1_or_not_found (t : List Char) :
    extract_endpoint_url t = .error urlErrMsg ∨
      ∃ u, extract_endpoint_url t = .ok u ∧ isV1Shape u :=
  goUrl_spec (rustLines (stripAnsi t))

/-! ## Lemmas about whitespace splitting (claim C3) -/

theorem splitWs_nil_eq : splitWs [] = [] := by simp [splitWs]

theorem splitWs_cons_ws (c : Char) (rest : List Char) (h : isWs c = true) :
    splitWs (c :: rest) = splitWs rest := by
  simp only [splitWs]
  rw [if_pos h]

theorem splitWs_cons_not_ws (c : Char) (rest : List Char) (h : isWs c = false) :
    splitWs (c :: rest) =
      (c :: rest.takeWhile (fun d => !isWs d)) ::
        splitWs (rest.dropWhile (fun d => !isWs d)) := by
  simp only [splitWs]
  rw [if_neg (by simp [h])]

theorem splitWs_allws (b : List Char) (hb : ∀ c ∈ b, isWs c = true) :
    splitWs b = [] := by
  induction b with
  | nil => exact splitWs_nil_eq
  | cons c rest ih =>
    rw [splitWs_cons_ws _ _ (hb c (by simp))]
    exact ih (fun d hd => hb d (by simp [hd]))

theorem getLast?_cons_of_ne {α : Type} (x : α) (xs : List α) (h : xs ≠ []) :
    (x :: xs).getLast? = xs.getLast? := by
  match xs with
  | [] => exact absurd rfl h
  | y :: ys => exact List.getLast?_cons_cons

theorem splitWs_append_allws_aux (b : List Char) (hb : ∀ c ∈ b, isWs c = true) :
    ∀ n a, List.length a ≤ n → splitWs (a ++ b) = splitWs a := by
  intro n
  induction n with
  | zero =>
    intro a ha
    have hnil : a = [] := List.length_eq_zero.mp (Nat.le_zero.mp ha)
    subst hnil
    simpa [splitWs_nil_eq] using splitWs_allws b hb
  | succ n ih =>
    intro a ha
    match a with
    | [] => simpa [splitWs_nil_eq] using splitWs_allws b hb
    | c :: a' =>
      have ha' : a'.length ≤ n := by simpa using ha
      by_cases hc : isWs c = true
      · rw [List.cons_append, splitWs_cons_ws _ _ hc, splitWs_cons_ws _ _ hc]
        exact ih a' ha'
      · have hc' : isWs c = false := by simpa using hc
        rw [List.cons_append, splitWs_cons_not_ws _ _ hc', splitWs_cons_not_ws _ _ hc']
        have htb : b.takeWhile (fun d => !isWs d) = [] := by
          cases b with
          | nil => rfl
          | cons x b' =>
            rw [List.takeWhile_cons]
            simp [hb x (by simp)]
        have hdb : b.dropWhile (fun d => !isWs d) = b := by
          cases b with
          | nil => rfl
          | cons x b' =>
            rw [List.dropWhile_cons]
            simp [hb x (by simp)]
        rw [List.takeWhile_append, List.dropWhile_append]
        by_cases hd : (a'.dropWhile (fun d => !isWs d)).isEmpty
        · have hdnil : a'.dropWhile (fun d => !isWs d) = [] := by
            rwa [List.isEmpty_iff] at hd
          have hta : a'.takeWhile (fun d => !isWs d) = a' := by
            conv_rhs => rw [← List.takeWhile_append_dropWhile (fun d => !isWs d) a']
            rw [hdnil, List.append_nil]
          rw [if_pos hd, if_pos (by rw [hta]), htb, hdb, hdnil]
          rw [List.append_nil, splitWs_nil_eq, splitWs_allws b hb, hta]
        · have hlen : ((a'.takeWhile (fun d => !isWs d)).length = a'.length) = False := by
            simp only [eq_iff_iff, iff_false]
            intro hcontra
            have := List.takeWhile_append_dropWhile (fun d => !isWs d) a'
            have hlen2 := congrArg List.length this
            rw [List.length_append] at hlen2
            have : (a'.dropWhile (fun d => !isWs d)).length = 0 := by omega
            rw [List.length_eq_zero] at this
            rw [this] at hd
            simp at hd
          rw [if_neg hd, if_neg (by rw [hlen]; exact fun h => h)]
          have hrec := ih (a'.dropWhile (fun d => !isWs d))
            (le_trans (List.Sublist.length_le (List.dropWhile_sublist _)) ha')
          rw [hrec]

theorem splitWs_append_allws (a b : List Char) (hb : ∀ c ∈ b, isWs c = true) :
    splitWs (a ++ b) = splitWs a :=
  splitWs_append_allws_aux b hb a.length a le_rfl

theorem splitWs_trimLeft (l : List Char) : splitWs (trimLeft l) = splitWs l := by
  unfold trimLeft
  induction l with
  | nil => simp
  | cons c rest ih =>
    rw [List.dropWhile_cons]
    by_cases hc : isWs c = true
    · rw [if_pos (by simp [hc]), ih, splitWs_cons_ws _ _ hc]
    · rw [if_neg (by simp at hc ⊢; exact hc)]

theorem splitWs_trimRight (l : List Char) : splitWs (trimRight l) = splitWs l := by
  have hws : ∀ c ∈ (l.reverse.takeWhile (fun c => isWs c)).reverse, isWs c = true := by
    intro c hc
    exact List.mem_takeWhile_imp (by simpa using hc)
  have hdecomp : trimRight l ++ (l.reverse.takeWhile (fun c => isWs c)).reverse = l := by
    unfold trimRight
    rw [← List.reverse_append, List.takeWhile_append_dropWhile, List.reverse_reverse]
  calc splitWs (trimRight l)
      = splitWs (trimRight l ++ (l.reverse.takeWhile (fun c => isWs c)).reverse) :=
        (splitWs_append_allws _ _ hws).symm
    _ = splitWs l := by rw [hdecomp]

theorem splitWs_trim (l : List Char) : splitWs (trimList l) = splitWs l := by
  unfold trimList
  rw [splitWs_trimRight, splitWs_trimLeft]

theorem splitWs_append_getLast_aux (b : List Char) (hb : 2 ≤ (splitWs b).length) :
    ∀ n a, List.length a ≤ n →
      (splitWs (a ++ b)).getLast? = (splitWs b).getLast? := by
  intro n
  induction n with
  | zero =>
    intro a ha
    have hnil : a = [] := List.length_eq_zero.mp (Nat.le_zero.mp ha)
    subst hnil
    simp
  | succ n ih =>
    intro a ha
    match a with
    | [] => simp
    | c :: a' =>
      have ha' : a'.length ≤ n := by simpa using ha
      by_cases hc : isWs c = true
      · rw [List.cons_append, splitWs_cons_ws _ _ hc]
        exact ih a' ha'
      · have hc' : isWs c = false := by simpa using hc
        rw [List.cons_append, splitWs_cons_not_ws _ _ hc']
        rw [List.dropWhile_append]
        by_cases hd : (a'.dropWhile (fun d => !isWs d)).isEmpty
        · rw [if_pos hd]
          cases b with
          | nil => rw [splitWs_nil_eq] at hb; simp at hb
          | cons x b' =>
            by_cases hx : isWs x = true
            · have hdb : (x :: b').dropWhile (fun d => !isWs d) = x :: b' := by
                rw [List.dropWhile_cons]
                simp [hx]
              rw [hdb]
              have hne : splitWs (x :: b') ≠ [] := by
                intro hcontra
                rw [hcontra] at hb
                simp at hb
              exact getLast?_cons_of_ne _ _ hne
            · have hx' : isWs x = false := by simpa using hx
              have hdb : (x :: b').dropWhile (fun d => !isWs d) =
                  b'.dropWhile (fun d => !isWs d) := by
                rw [List.dropWhile_cons]
                simp [hx']
              rw [hdb]
              rw [splitWs_cons_not_ws _ _ hx'] at hb ⊢
              have hne : splitWs (b'.dropWhile (fun d => !isWs d)) ≠ [] := by
                intro hcontra
                rw [hcontra] at hb
                simp at hb
              rw [getLast?_cons_of_ne _ _ hne, getLast?_cons_of_ne _ _ hne]
        · rw [if_neg hd]
          have hrec := ih (a'.dropWhile (fun d => !isWs d))
            (le_trans (List.Sublist.length_le (List.dropWhile_sublist _)) ha')
          have hne : splitWs (a'.dropWhile (fun d => !isWs d) ++ b) ≠ [] := by
            intro hcontra
            rw [hcontra] at hrec
            have hbne : splitWs b ≠ [] := by
              intro hb2
              rw [hb2] at hb
              simp at hb
            have hnone : (splitWs b).getLast? = none := hrec.symm
            rw [List.getLast?_eq_none_iff] at hnone
            exact hbne hnone
          rw [getLast?_cons_of_ne _ _ hne, hrec]

theorem splitWs_append_getLast (a b : List Char) (hb : 2 ≤ (splitWs b).length) :
    (splitWs (a ++ b)).getLast? = (splitWs b).getLast? :=
  splitWs_append_getLast_aux b hb a.length a le_rfl

theorem modelLineResult_eq_of (line : List Char) (g : Char) (r : List Char)
    (hg : trimList line = g :: r) (hglyph : g ∈ glyphList)
    (hparts : 2 ≤ (splitWs (trimList ((trimList line).dropWhile (fun c => !c.isAlphanum)))).length) :
    modelLineResult line =
      (splitWs (trimList ((trimList line).dropWhile (fun c => !c.isAlphanum)))).getLast? := by
  unfold modelLineResult
  have h1 : ¬ trimList line = [] := by rw [hg]; simp
  have h2 : startsWithGlyph (trimList line) = true := by
    rw [hg]
    simp only [startsWithGlyph, glyphList] at hglyph ⊢
    simp at hglyph
    rcases hglyph with rfl | rfl | rfl | rfl <;> decide
  rw [if_neg h1, if_pos h2, if_pos hparts]

theorem goModelLines_first (pre : List (List Char)) (l : List Char) (post : List (List Char))
    (hpre : ∀ l2 ∈ pre, modelLineResult l2 = none) (hl : modelLineResult l ≠ none) :
    goModelLines (pre ++ l :: post) = modelLineResult l := by
  induction pre with
  | nil =>
    simp only [List.nil_append, goModelLines]
    cases hm : modelLineResult l with
    | none => exact absurd hm hl
    | some r => rfl
  | cons p pre' ih =>
    simp only [List.cons_append, goModelLines]
    rw [hpre p (by simp)]
    exact ih (fun l2 hl2 => hpre l2 (by simp [hl2]))

/-- C3 counterexample: a text whose sanitized lines contain two qualifying
glyph-prefixed model lines.  The second line `🟢 b y:2` satisfies every
condition of the claim, so the claim as stated demands the result `y:2`, yet
extraction returns `x:1`, the last token of the earlier qualifying line. -/
theorem c3_counterexample :
    rustLines (stripAnsi (chars "🟢 a x:1\n🟢 b y:2")) =
        [chars "🟢 a x:1", chars "🟢 b y:2"] ∧
      modelLineResult (chars "🟢 b y:2") = some (chars "y:2") ∧
      extract_model_id (chars "🟢 a x:1\n🟢 b y:2") = .ok (chars "x:1") ∧
      chars "x:1" ≠ chars "y:2" := by
  refine ⟨?_, ?_, ?_, by decide⟩
  · simp [rustLines, stripAnsi, splitOnNl, stripCr, chars]
  · simp [modelLineResult, trimList, trimLeft, trimRight, startsWithGlyph, glyphList,
      splitWs, isWs, chars]
  · simp [extract_model_id, rustLines, stripAnsi, splitOnNl, stripCr, goModelLines,
      modelLineResult, trimList, trimLeft, trimRight, startsWithGlyph, glyphList,
      splitWs, isWs, chars]

/-- C3 (amended): for every text whose sanitized lines contain a
glyph-prefixed line with at least two columns after stripping the status
prefix, and where that line is the first productive one, identifier
extraction returns exactly the last whitespace-delimited token of that line. -/
theorem c3_amended_extract_model_id_first_glyph_line
    (t tok l : List Char) (pre post : List (List Char)) (g : Char) (r : List Char)
    (hlines : rustLines (stripAnsi t) = pre ++ l :: post)
    (hpre : ∀ l2 ∈ pre, modelLineResult l2 = none)
    (hg : trimList l = g :: r) (hglyph : g ∈ glyphList)
    (hparts : 2 ≤ (splitWs (trimList ((trimList l).dropWhile (fun c => !c.isAlphanum)))).length)
    (htok : (splitWs l).getLast? = some tok) :
    extract_model_id t = .ok tok := by
  have hparts' : 2 ≤ (splitWs ((trimList l).dropWhile (fun c => !c.isAlphanum))).length := by
    rwa [splitWs_trim] at hparts
  have hstrip :
      (splitWs (trimList ((trimList l).dropWhile (fun c => !c.isAlphanum)))).getLast? =
        some tok := by
    rw [splitWs_trim]
    have hW := splitWs_append_getLast ((trimList l).takeWhile (fun c => !c.isAlphanum))
      ((trimList l).dropWhile (fun c => !c.isAlphanum)) hparts'
    rw [List.takeWhile_append_dropWhile] at hW
    rw [← hW, splitWs_trim]
    exact htok
  have hml : modelLineResult l = some tok := by
    rw [modelLineResult_eq_of l g r hg hglyph hparts]
    exact hstrip
  unfold extract_model_id
  rw [hlines, goModelLines_first pre l post hpre (by rw [hml]; simp), hml]

/-- C3 (amended) witness: on the single-line listing `🟢 a b:3` extraction
returns `b:3`, the last whitespace-delimited token of the line. -/
theorem c3_amended_witness :
    extract_model_id (chars "🟢 a b:3") = .ok (chars "b:3") := by
  refine c3_amended_extract_model_id_first_glyph_line (chars "🟢 a b:3") (chars "b:3")
    (chars "🟢 a b:3") [] [] '🟢' (chars " a b:3") ?_ ?_ ?_ ?_ ?_ ?_
  · simp [rustLines, stripAnsi, splitOnNl, stripCr, chars]
  · intro l2 hl2
    simp at hl2
  · decide
  · decide
  · simp [splitWs, trimList, trimLeft, trimRight, isWs, chars]
  · simp [splitWs, isWs, chars]

/-! ## Claim C2: is_service_running -/

/-- C2 counterexample: a zero-exit result whose stderr contains the phrase
"not responding".  The claim demands the value `false`, but the decision core
of `is_service_running` only inspects stderr on a non-zero exit and returns
`true` here. -/
theorem c2_counterexample :
    containsSub (chars "not responding") (chars "not responding") = true ∧
      serviceRunningOfOutput ⟨true, chars "ok", chars "not responding"⟩ = .ok true := by
  exact ⟨by decide, rfl⟩

/-- C2 (amended): branch behaviour of `is_service_running` as a function of
the captured command result: on a non-zero exit it returns `false` exactly
when stderr contains "service is not running" or "not responding"
(case-sensitively) and a hard error otherwise; on a zero exit it returns
`false` exactly when the lowercased stdout contains "not running", and `true`
otherwise. -/
theorem c2_amended_is_service_running_branches (r : CommandResult) :
    (r.success = false →
      (containsSub (chars "service is not running") r.stderr = true ∨
        containsSub (chars "not responding") r.stderr = true) →
      serviceRunningOfOutput r = .ok false) ∧
    (r.success = false →
      containsSub (chars "service is not running") r.stderr = false →
      containsSub (chars "not responding") r.stderr = false →
      (∃ m, serviceRunningOfOutput r = .error m)) ∧
    (r.success = true →
      containsSub (chars "not running") (toLowerL r.stdout) = true →
      serviceRunningOfOutput r = .ok false) ∧
    (r.success = true →
      containsSub (chars "not running") (toLowerL r.stdout) = false →
      serviceRunningOfOutput r = .ok true) := by
  refine ⟨?_, ?_, ?_, ?_⟩
  · intro hs hor
    rcases hor with h | h <;> simp [serviceRunningOfOutput, hs, h]
  · intro hs h1 h2
    refine ⟨"Foundry service list command failed", ?_⟩
    simp [serviceRunningOfOutput, hs, h1, h2]
  · intro hs h
    simp [serviceRunningOfOutput, hs, h]
  · intro hs h
    simp [serviceRunningOfOutput, hs, h]

/-- C2 (amended) witness: each branch of the amended statement evaluated at a
concrete command result. -/
theorem c2_amended_witness :
    serviceRunningOfOutput ⟨false, chars "", chars "foundry service is not running"⟩ = .ok false ∧
      (∃ m, serviceRunningOfOutput ⟨false, chars "", chars "boom"⟩ = .error m) ∧
      serviceRunningOfOutput ⟨true, chars "Model NOT Running", chars ""⟩ = .ok false ∧
      serviceRunningOfOutput ⟨true, chars "all good", chars ""⟩ = .ok true := by
  refine ⟨?_, ?_, ?_, ?_⟩
  · exact (c2_amended_is_service_running_branches
      ⟨false, chars "", chars "foundry service is not running"⟩).1 rfl (Or.inl (by decide))
  · exact (c2_amended_is_service_running_branches ⟨false, chars "", chars "boom"⟩).2.1
      rfl (by decide) (by decide)
  · exact (c2_amended_is_service_running_branches ⟨true, chars "Model NOT Running", chars ""⟩).2.2.1
      rfl (by decide)
  · exact (c2_amended_is_service_running_branches ⟨true, chars "all good", chars ""⟩).2.2.2
      rfl (by decide)

/-! ## Claim C4: sentinel check of get_model_id_once -/

theorem isPrefixOf_map (f : Char → Char) (pat l : List Char)
    (h : pat.isPrefixOf l = true) : (pat.map f).isPrefixOf (l.map f) = true := by
  induction pat generalizing l with
  | nil => simp
  | cons p ps ih =>
    cases l with
    | nil => simp [List.isPrefixOf] at h
    | cons x xs =>
      simp only [List.isPrefixOf, Bool.and_eq_true, beq_iff_eq] at h
      simp only [List.map_cons, List.isPrefixOf, Bool.and_eq_true, beq_iff_eq]
      exact ⟨by rw [h.1], ih xs h.2⟩

theorem containsSub_map (f : Char → Char) (pat l : List Char)
    (h : containsSub pat l = true) :
    containsSub (pat.map f) (l.map f) = true := by
  induction l with
  | nil =>
    simp only [containsSub, List.isEmpty_iff] at h
    simp [containsSub, h]
  | cons c rest ih =>
    simp only [containsSub, Bool.or_eq_true] at h
    rcases h with h | h
    · have := isPrefixOf_map f pat (c :: rest) h
      simp only [List.map_cons] at this
      simp [containsSub, this]
    · simp [containsSub, ih h]

/-- C4: whenever a successful listing output textually contains the sentinel
phrase "no models are currently loaded", the single-shot identifier query
returns `none` as a success value — regardless of any other content, and in
particular regardless of what the identifier extractor would produce. -/
theorem c4_get_model_id_once_sentinel_none (r : CommandResult)
    (hs : r.success = true)
    (hsent : containsSub sentinelNoModels r.stdout = true) :
    modelIdOnceOfOutput r = .ok none := by
  have hlow : containsSub sentinelNoModels (toLowerL r.stdout) = true := by
    have hmono := containsSub_map Char.toLower sentinelNoModels r.stdout hsent
    have hfix : sentinelNoModels.map Char.toLower = sentinelNoModels := by decide
    rw [hfix] at hmono
    exact hmono
  simp [modelIdOnceOfOutput, hs, hlow]

/-- C4 witness: a listing output containing the sentinel phrase together with
a perfectly extractable model line still yields `none`. -/
theorem c4_witness :
    modelIdOnceOfOutput
        ⟨true, chars "🟢 a b:3\nno models are currently loaded", chars ""⟩ = .ok none :=
  c4_get_model_id_once_sentinel_none _ rfl (by decide)

/-! ## Claim C5: start_service_with_timeout -/

theorem startGo_of_reach (timeout : Nat) (child : Nat → Option Bool) :
    ∀ k, reachPoll timeout child k →
      startGo timeout child 0 = startGo timeout child k := by
  intro k
  induction k with
  | zero => intro _; rfl
  | succ k ih =>
    intro hreach
    have hk := hreach k (Nat.lt_succ_self k)
    have hprev : reachPoll timeout child k := fun j hj => hreach j (Nat.lt_succ_of_lt hj)
    rw [ih hprev]
    conv_lhs => rw [startGo]
    rw [hk.1]
    exact dif_neg (by omega)

/-- C5: provided the loop reaches polling iteration `k` (the child was still
running and the deadline had not passed at every earlier iteration): a child
observed to have exited non-zero before the deadline propagates a failure, a
zero exit yields success, and if the deadline has elapsed while the child is
still running the call returns success anyway. -/
theorem c5_start_service_with_timeout_cases (timeout : Nat)
    (child : Nat → Option Bool) (k : Nat) (hreach : reachPoll timeout child k) :
    (child k = some true → 250 * k < timeout →
      start_service_with_timeout timeout true child = .ok ()) ∧
    (child k = some false → 250 * k < timeout →
      start_service_with_timeout timeout true child = .error startFailMsg) ∧
    (child k = none → timeout ≤ 250 * k →
      start_service_with_timeout timeout true child = .ok ()) := by
  have hrw : start_service_with_timeout timeout true child = startGo timeout child k := by
    unfold start_service_with_timeout
    rw [if_pos rfl]
    exact startGo_of_reach timeout child k hreach
  refine ⟨?_, ?_, ?_⟩ <;> intro h1 h2 <;> rw [hrw] <;> rw [startGo, h1]
  · rfl
  · rfl
  · exact dif_pos h2

/-- C5 witness: all three cases at concrete children and deadlines. -/
theorem c5_witness :
    start_service_with_timeout 1000 true (fun j => if j < 2 then none else some true) = .ok () ∧
      start_service_with_timeout 1000 true (fun j => if j < 2 then none else some false) =
        .error startFailMsg ∧
      start_service_with_timeout 500 true (fun _ => none) = .ok () := by
  refine ⟨?_, ?_, ?_⟩
  · exact (c5_start_service_with_timeout_cases 1000 (fun j => if j < 2 then none else some true) 2
      (fun j hj => ⟨by simp [hj], by omega⟩)).1 rfl (by omega)
  · exact (c5_start_service_with_timeout_cases 1000 (fun j => if j < 2 then none else some false) 2
      (fun j hj => ⟨by simp [hj], by omega⟩)).2.1 rfl (by omega)
  · exact (c5_start_service_with_timeout_cases 500 (fun _ => none) 2
      (fun j hj => ⟨rfl, by omega⟩)).2.2 rfl (by omega)

/-! ## Claim C6: snapshot invariants of get_foundry_status -/

/-- C6: every snapshot built by the status aggregator satisfies the data
model invariants: `running = false` implies both optional fields are absent,
and `installed = false` implies `running = false`, both optional fields
absent, and `model_cached = false`. -/
theorem c6_snapshot_invariants (e : Env) (k : Nat) :
    ((get_foundry_status e k).1.running = false →
      (get_foundry_status e k).1.endpoint_url = none ∧
        (get_foundry_status e k).1.model_id = none) ∧
    ((get_foundry_status e k).1.installed = false →
      (get_foundry_status e k).1.running = false ∧
        (get_foundry_status e k).1.endpoint_url = none ∧
        (get_foundry_status e k).1.model_id = none ∧
        (get_foundry_status e k).1.model_cached = false) := by
  cases hi : installedOfOutput e.exePath (e.resp k) with
  | false =>
    simp only [get_foundry_status, is_installed, hi, Bool.false_eq_true, if_false]
    simp
  | true =>
    simp only [get_foundry_status, is_installed, hi, if_true]
    cases hresp : e.resp (k + 1) with
    | none =>
      simp only [is_service_running, hresp]
      simp
    | some r =>
      simp only [is_service_running, hresp]
      cases hsr : serviceRunningOfOutput r with
      | error m => simp
      | ok b =>
        cases b with
        | false => simp
        | true => simp

/-- C6 witness: the invariants applied to a not-installed environment. -/
theorem c6_witness :
    ((get_foundry_status ⟨fun _ => some ⟨false, chars "", chars ""⟩, false⟩ 0).1.endpoint_url = none ∧
      (get_foundry_status ⟨fun _ => some ⟨false, chars "", chars ""⟩, false⟩ 0).1.model_id = none) ∧
      ((get_foundry_status ⟨fun _ => some ⟨false, chars "", chars ""⟩, false⟩ 0).1.running = false ∧
        (get_foundry_status ⟨fun _ => some ⟨false, chars "", chars ""⟩, false⟩ 0).1.endpoint_url = none ∧
        (get_foundry_status ⟨fun _ => some ⟨false, chars "", chars ""⟩, false⟩ 0).1.model_id = none ∧
        (get_foundry_status ⟨fun _ => some ⟨false, chars "", chars ""⟩, false⟩ 0).1.model_cached = false) :=
  ⟨(c6_snapshot_invariants ⟨fun _ => some ⟨false, chars "", chars ""⟩, false⟩ 0).1 rfl,
    (c6_snapshot_invariants ⟨fun _ => some ⟨false, chars "", chars ""⟩, false⟩ 0).2 rfl⟩

/-! ## Claim C7: ensure_model_downloaded -/

/-- C7: when the cache query reports the model cached, no download invocation
is issued; when it reports not cached, exactly one download invocation is
issued (its trace is exactly one cache query followed by one download), and a
non-zero exit of that invocation fails the operation. -/
theorem c7_ensure_model_downloaded_invocations (name : List Char) (e : Env) :
    (cachedResult name e 0 = .ok true →
      ensure_model_downloaded name e 0 = (.ok (), 1, [.cmd cacheArgs])) ∧
    (cachedResult name e 0 = .ok false →
      (ensure_model_downloaded name e 0).2.2 = [.cmd cacheArgs, .cmd (dlArgs name)] ∧
        (∀ r, e.resp 1 = some r → r.success = false →
          (ensure_model_downloaded name e 0).1 = .error "Failed to download Foundry model")) := by
  unfold cachedResult
  cases hresp : e.resp 0 with
  | none =>
    simp only [is_model_cached, hresp]
    constructor
    · intro h
      simp at h
    · intro h
      simp at h
  | some r =>
    simp only [is_model_cached, hresp]
    cases hco : cachedOfOutput name r with
    | error m =>
      constructor
      · intro h; simp at h
      · intro h; simp at h
    | ok b =>
      cases b with
      | true =>
        constructor
        · intro _
          simp only [ensure_model_downloaded, is_model_cached, hresp, hco]
        · intro h; simp at h
      | false =>
        constructor
        · intro h; simp at h
        · intro _
          simp only [ensure_model_downloaded, is_model_cached, hresp, hco]
          cases hresp1 : e.resp 1 with
          | none =>
            simp only [download_model, hresp1]
            exact ⟨rfl, fun r1 hr1 => by simp [hr1] at hresp1 ⊢; simp [hresp1] at hr1⟩
          | some r1 =>
            simp only [download_model, hresp1]
            refine ⟨rfl, fun r2 hr2 hfail => ?_⟩
            have hre : r2 = r1 := (Option.some.inj hr2).symm
            subst hre
            simp [hfail]

/-- C7 witness: a cached model issues no download; an uncached one issues
exactly one. -/
theorem c7_witness :
    ensure_model_downloaded (chars "m") ⟨fun _ => some ⟨true, chars "m", chars ""⟩, false⟩ 0 =
        (.ok (), 1, [.cmd cacheArgs]) ∧
      (ensure_model_downloaded (chars "m") ⟨fun _ => some ⟨true, chars "x", chars ""⟩, false⟩ 0).2.2 =
        [.cmd cacheArgs, .cmd (dlArgs (chars "m"))] :=
  ⟨(c7_ensure_model_downloaded_invocations (chars "m")
      ⟨fun _ => some ⟨true, chars "m", chars ""⟩, false⟩).1 rfl,
    ((c7_ensure_model_downloaded_invocations (chars "m")
      ⟨fun _ => some ⟨true, chars "x", chars ""⟩, false⟩).2 rfl).1⟩

/-! ## Claim C8: install_foundry_local -/

/-- C8 counterexample: on a non-Windows platform with the program installed
(the help probe succeeds, so `is_installed` is true), install does not return
the current version as the claim states: it fails unconditionally with the
platform-unsupported error. -/
theorem c8_counterexample :
    (is_installed ⟨fun _ => some ⟨true, chars "help", chars ""⟩, false⟩ 0).1 = true ∧
      install_foundry_local false ⟨fun _ => some ⟨true, chars "help", chars ""⟩, false⟩ 0 =
        (.error platformErrMsg, 0, []) :=
  ⟨rfl, rfl⟩

theorem get_version_no_winget (e : Env) (k : Nat) :
    cmdCount wingetArgs (get_version e k).2.2 = 0 := by
  unfold get_version
  cases e.resp k with
  | some r => simp [cmdCount]; decide
  | none =>
    by_cases hp : e.exePath
    · rw [if_pos hp]
      cases e.resp (k + 1) with
      | some r => simp [cmdCount]; decide
      | none => simp [cmdCount]; decide
    · rw [if_neg hp]
      simp [cmdCount]; decide

/-- C8 (amended): on Windows, install is a no-op returning the current
version when already installed (no winget invocation); when not installed it
invokes winget exactly once; on every non-Windows platform it fails with the
platform-unsupported error regardless of installation state, issuing no
invocation at all. -/
theorem c8_amended_install_cases (e : Env) (k : Nat) :
    ((is_installed e k).1 = true →
      install_foundry_local true e k =
        ((get_version e (k + 1)).1, (get_version e (k + 1)).2.1,
          .cmd helpArgs :: (get_version e (k + 1)).2.2) ∧
        cmdCount wingetArgs (install_foundry_local true e k).2.2 = 0) ∧
    ((is_installed e k).1 = false →
      cmdCount wingetArgs (install_foundry_local true e k).2.2 = 1) ∧
    install_foundry_local false e k = (.error platformErrMsg, k, []) := by
  refine ⟨?_, ?_, rfl⟩
  · intro h
    have hi : installedOfOutput e.exePath (e.resp k) = true := h
    have heq : install_foundry_local true e k =
        ((get_version e (k + 1)).1, (get_version e (k + 1)).2.1,
          .cmd helpArgs :: (get_version e (k + 1)).2.2) := by
      simp only [install_foundry_local, is_installed, hi, if_true]
      simp
    refine ⟨heq, ?_⟩
    rw [heq]
    simp only [cmdCount, List.countP_cons]
    have := get_version_no_winget e (k + 1)
    simp only [cmdCount] at this
    rw [this]
    decide
  · intro h
    have hi : installedOfOutput e.exePath (e.resp k) = false := h
    simp only [install_foundry_local, is_installed, hi, Bool.false_eq_true, if_false]
    cases hresp : e.resp (k + 1) with
    | none => simp [cmdCount]; decide
    | some r =>
      cases hsucc : r.success with
      | false =>
        simp only [hsucc, if_true]
        simp [cmdCount]; decide
      | true =>
        simp only [hsucc]
        rw [if_neg (by decide : ¬ (true = false))]
        simp only [if_true, cmdCount, List.countP_append, List.countP_cons]
        have hgv := get_version_no_winget e (k + 1 + 1)
        simp only [cmdCount] at hgv
        rw [hgv]
        decide

/-- C8 (amended) witness: all three cases at concrete environments. -/
theorem c8_witness :
    cmdCount wingetArgs
        (install_foundry_local true ⟨fun _ => some ⟨true, chars "v1", chars ""⟩, false⟩ 0).2.2 = 0 ∧
      cmdCount wingetArgs
        (install_foundry_local true ⟨fun _ => some ⟨false, chars "", chars ""⟩, false⟩ 0).2.2 = 1 ∧
      install_foundry_local false ⟨fun _ => some ⟨true, chars "v1", chars ""⟩, false⟩ 0 =
        (.error platformErrMsg, 0, []) :=
  ⟨((c8_amended_install_cases ⟨fun _ => some ⟨true, chars "v1", chars ""⟩, false⟩ 0).1 rfl).2,
    (c8_amended_install_cases ⟨fun _ => some ⟨false, chars "", chars ""⟩, false⟩ 0).2.1 rfl,
    (c8_amended_install_cases ⟨fun _ => some ⟨true, chars "v1", chars ""⟩, false⟩ 0).2.2⟩

/-! ## Claim C9: wait_for_model_cached -/

theorem is_model_cached_eq (name : List Char) (e : Env) (k : Nat) :
    is_model_cached name e k = (cachedResult name e k, k + 1, [.cmd cacheArgs]) := by
  unfold cachedResult is_model_cached
  cases e.resp k <;> rfl

theorem waitCachedGo_all_uncached (name : List Char) (delay : Nat) (e : Env) :
    ∀ n k, (∀ i, k ≤ i → i < k + n → cachedResult name e i = .ok false) →
      waitCachedGo name delay e n k =
        (.error cacheTimeoutMsg, k + n, pollT cacheArgs delay n) := by
  intro n
  induction n with
  | zero => intro k _; simp [waitCachedGo, pollT]
  | succ n ih =>
    intro k h
    have hk : cachedResult name e k = .ok false := h k le_rfl (by omega)
    rw [waitCachedGo, is_model_cached_eq, hk]
    dsimp only
    cases n with
    | zero => simp [pollT]
    | succ m =>
      rw [if_neg (by omega : ¬ (m + 1 = 0))]
      have hrec := ih (k + 1) (fun i h1 h2 => h i (by omega) (by omega))
      rw [hrec]
      dsimp only
      rw [show k + 1 + (m + 1) = k + (m + 1 + 1) from by omega]
      rfl


theorem waitCachedGo_first_success (name : List Char) (delay : Nat) (e : Env) :
    ∀ n k i, i < n → (∀ j, k ≤ j → j < k + i → cachedResult name e j = .ok false) →
      cachedResult name e (k + i) = .ok true →
      waitCachedGo name delay e n k =
        (.ok (), k + i + 1, pollT cacheArgs delay (i + 1)) := by
  intro n
  induction n with
  | zero => intro k i hi; omega
  | succ n ih =>
    intro k i hi hprev hsucc
    cases i with
    | zero =>
      rw [Nat.add_zero] at hsucc
      rw [waitCachedGo, is_model_cached_eq, hsucc]
      rfl
    | succ i2 =>
      have hk : cachedResult name e k = .ok false := hprev k le_rfl (by omega)
      rw [waitCachedGo, is_model_cached_eq, hk]
      dsimp only
      have hn : ¬ (n = 0) := by omega
      rw [if_neg hn]
      have hrec := ih (k + 1) i2 (by omega)
        (fun j h1 h2 => hprev j (by omega) (by omega))
        (by rw [show k + 1 + i2 = k + (i2 + 1) from by omega]; exact hsucc)
      rw [hrec]
      dsimp only
      rw [show k + 1 + i2 + 1 = k + (i2 + 1) + 1 from by omega]
      rfl


/-- C9: with three attempts and delay D, if all three cache queries report
"not cached" the wait fails with the timeout error after exactly three cache
invocations and exactly two sleeps of D (total waiting time 2·D, with no
sleep after the last attempt); and the wait succeeds right after the first
query that reports the model cached, with one query per attempt so far and
one sleep between consecutive attempts. -/
theorem c9_wait_for_model_cached_bounds (name : List Char) (D : Nat) (e : Env) :
    ((∀ i, i < 3 → cachedResult name e i = .ok false) →
      wait_for_model_cached name 3 D e 0 =
          (.error cacheTimeoutMsg, 3, pollT cacheArgs D 3) ∧
        cmdCount cacheArgs (wait_for_model_cached name 3 D e 0).2.2 = 3 ∧
        sleepTotal (wait_for_model_cached name 3 D e 0).2.2 = 2 * D) ∧
    (∀ i, i < 3 → (∀ j, j < i → cachedResult name e j = .ok false) →
      cachedResult name e i = .ok true →
      wait_for_model_cached name 3 D e 0 =
        (.ok (), i + 1, pollT cacheArgs D (i + 1))) := by
  constructor
  · intro h
    have heq := waitCachedGo_all_uncached name D e 3 0
      (fun i h1 h2 => h i (by omega))
    have heq' : wait_for_model_cached name 3 D e 0 =
        (.error cacheTimeoutMsg, 3, pollT cacheArgs D 3) := by
      unfold wait_for_model_cached
      simpa using heq
    refine ⟨heq', ?_, ?_⟩
    · rw [heq']
      simp [cmdCount, pollT, List.countP_cons]
    · rw [heq']
      simp [sleepTotal, pollT]
      omega
  · intro i hi hprev hsucc
    have heq := waitCachedGo_first_success name D e 3 0 i hi
      (fun j h1 h2 => hprev j (by omega)) (by simpa using hsucc)
    unfold wait_for_model_cached
    simpa using heq

/-- C9 witness: an environment whose cache listing never contains the model
name; the wait times out with three queries and two sleeps. -/
theorem c9_witness :
    wait_for_model_cached (chars "m") 3 5 ⟨fun _ => some ⟨true, chars "", chars ""⟩, false⟩ 0 =
        (.error cacheTimeoutMsg, 3, pollT cacheArgs 5 3) ∧
      cmdCount cacheArgs
        (wait_for_model_cached (chars "m") 3 5
          ⟨fun _ => some ⟨true, chars "", chars ""⟩, false⟩ 0).2.2 = 3 ∧
      sleepTotal
        (wait_for_model_cached (chars "m") 3 5
          ⟨fun _ => some ⟨true, chars "", chars ""⟩, false⟩ 0).2.2 = 2 * 5 :=
  (c9_wait_for_model_cached_bounds (chars "m") 5
    ⟨fun _ => some ⟨true, chars "", chars ""⟩, false⟩).1 (fun i _ => rfl)

/-! ## Claim C10: wait_for_service_ready -/

theorem waitReadyGo_abort (e : Env) (delay : Nat) :
    ∀ n k i, i < n → (∀ j, j < i → ∃ r, e.resp (k + j) = some r ∧ notReadyOutput r) →
      badStatusResp (e.resp (k + i)) →
      ∃ m, waitReadyGo e delay n k =
        (.error m, k + i + 1, pollT statusArgs delay (i + 1)) := by
  intro n
  induction n with
  | zero => intro k i hi; omega
  | succ n ih =>
    intro k i hi hprev hbad
    cases i with
    | zero =>
      rw [Nat.add_zero] at hbad
      rcases hbad with hnone | ⟨r, hr, hcase⟩
      · refine ⟨spawnErrMsg, ?_⟩
        rw [waitReadyGo, hnone]
        rfl
      · cases hsucc : r.success with
        | false =>
          refine ⟨statusFailMsg, ?_⟩
          rw [waitReadyGo, hr]
          dsimp only
          rw [if_pos hsucc]
          rfl
        | true =>
          have hnr : containsSub (chars "not running") (toLowerL r.stdout) = true := by
            rcases hcase with hfail | hnr2
            · rw [hsucc] at hfail
              exact absurd hfail (by decide)
            · exact hnr2
          refine ⟨notRunningMsg, ?_⟩
          rw [waitReadyGo, hr]
          dsimp only
          rw [if_neg (by simp [hsucc]), if_pos hnr]
          rfl
    | succ i2 =>
      obtain ⟨r, hr, hnready⟩ := hprev 0 (by omega)
      rw [Nat.add_zero] at hr
      obtain ⟨hsucc, hnr, hready⟩ := hnready
      have hreadyb :
          (!containsSub (chars "in progress") (toLowerL r.stdout) &&
            containsSub (chars "running on") (toLowerL r.stdout)) = false := by
        rcases hready with hcase | hcase <;> simp [hcase]
      rw [waitReadyGo, hr]
      dsimp only
      rw [if_neg (by simp [hsucc]), if_neg (by simp [hnr]), if_neg (by simp [hreadyb])]
      have hn : ¬ (n = 0) := by omega
      rw [if_neg hn]
      obtain ⟨m, hm⟩ := ih (k + 1) i2 (by omega)
        (fun j hj => by
          have hpj := hprev (j + 1) (by omega)
          rwa [show k + (j + 1) = k + 1 + j from by omega] at hpj)
        (by rwa [show k + 1 + i2 = k + (i2 + 1) from by omega])
      refine ⟨m, ?_⟩
      rw [hm]
      dsimp only
      rw [show k + 1 + i2 + 1 = k + (i2 + 1) + 1 from by omega]
      rfl

theorem waitReadyGo_all_notready (e : Env) (delay : Nat) :
    ∀ n k, (∀ j, j < n → ∃ r, e.resp (k + j) = some r ∧ notReadyOutput r) →
      waitReadyGo e delay n k =
        (.error readyTimeoutMsg, k + n, pollT statusArgs delay n) := by
  intro n
  induction n with
  | zero => intro k _; simp [waitReadyGo, pollT]
  | succ n ih =>
    intro k h
    obtain ⟨r, hr, hnready⟩ := h 0 (by omega)
    rw [Nat.add_zero] at hr
    obtain ⟨hsucc, hnr, hready⟩ := hnready
    have hreadyb :
        (!containsSub (chars "in progress") (toLowerL r.stdout) &&
          containsSub (chars "running on") (toLowerL r.stdout)) = false := by
      rcases hready with hcase | hcase <;> simp [hcase]
    rw [waitReadyGo, hr]
    dsimp only
    rw [if_neg (by simp [hsucc]), if_neg (by simp [hnr]), if_neg (by simp [hreadyb])]
    cases n with
    | zero =>
      rw [if_pos rfl]
      rfl
    | succ m =>
      rw [if_neg (by omega : ¬ (m + 1 = 0))]
      have hrec := ih (k + 1)
        (fun j hj => by
          have hpj := h (j + 1) (by omega)
          rwa [show k + (j + 1) = k + 1 + j from by omega] at hpj)
      rw [hrec]
      dsimp only
      rw [show k + 1 + (m + 1) = k + (m + 1 + 1) from by omega]
      rfl

/-- C10: the readiness wait aborts immediately — with one final status query,
no further queries, and no sleep after it — as soon as a status query fails
to spawn, exits non-zero, or reports "not running" in stdout; and only
not-yet-ready observations consume attempts, leading to the timeout error
after all attempts are exhausted, with one query per attempt and sleeps only
between attempts. -/
theorem c10_wait_for_service_ready_abort_and_timeout (e : Env) (attempts delay : Nat) :
    (∀ i, i < attempts → (∀ j, j < i → ∃ r, e.resp j = some r ∧ notReadyOutput r) →
      badStatusResp (e.resp i) →
      ∃ m, wait_for_service_ready attempts delay e 0 =
        (.error m, i + 1, pollT statusArgs delay (i + 1))) ∧
    ((∀ j, j < attempts → ∃ r, e.resp j = some r ∧ notReadyOutput r) →
      wait_for_service_ready attempts delay e 0 =
        (.error readyTimeoutMsg, attempts, pollT statusArgs delay attempts)) := by
  constructor
  · intro i hi hprev hbad
    have h := waitReadyGo_abort e delay attempts 0 i hi
      (fun j hj => by simpa using hprev j hj) (by simpa using hbad)
    unfold wait_for_service_ready
    simpa using h
  · intro h
    have heq := waitReadyGo_all_notready e delay attempts 0
      (fun j hj => by simpa using h j hj)
    unfold wait_for_service_ready
    simpa using heq

/-- C10 witness: one not-yet-ready observation followed by a non-zero exit
aborts at the second query with no trailing sleep; an environment that never
becomes ready times out after all attempts. -/
theorem c10_witness :
    (∃ m, wait_for_service_ready 3 9
        ⟨fun j => if j = 0 then some ⟨true, chars "starting", chars ""⟩
          else some ⟨false, chars "", chars "boom"⟩, false⟩ 0 =
        (.error m, 2, pollT statusArgs 9 2)) ∧
      wait_for_service_ready 3 9
          ⟨fun _ => some ⟨true, chars "starting", chars ""⟩, false⟩ 0 =
        (.error readyTimeoutMsg, 3, pollT statusArgs 9 3) := by
  constructor
  · exact (c10_wait_for_service_ready_abort_and_timeout
      ⟨fun j => if j = 0 then some ⟨true, chars "starting", chars ""⟩
        else some ⟨false, chars "", chars "boom"⟩, false⟩ 3 9).1 1 (by omega)
      (fun j hj => ⟨⟨true, chars "starting", chars ""⟩,
        by rw [show j = 0 from by omega]; rfl, ⟨rfl, by decide, Or.inr (by decide)⟩⟩)
      (Or.inr ⟨⟨false, chars "", chars "boom"⟩, rfl, Or.inl rfl⟩)
  · exact (c10_wait_for_service_ready_abort_and_timeout
      ⟨fun _ => some ⟨true, chars "starting", chars ""⟩, false⟩ 3 9).2
      (fun j _ => ⟨⟨true, chars "starting", chars ""⟩, rfl,
        ⟨rfl, by decide, Or.inr (by decide)⟩⟩)

end Handy
